import Mathlib

/-!
Verification development for the line-oriented TCP key-value server.

The embedding models the pure, sequential core of the program:

* `readLine` mirrors `LineReader::read_line` (src/protocol.cpp), with the
  byte stream presented as the list of chunks successive `recv` calls
  return; an exhausted chunk list models `recv` returning 0 (disconnect).
* `handle_command` mirrors the modular command handler (src/server.cpp);
  `Mono.handle_command` mirrors the monolithic one (src/main.cpp).
* `serve_client_step` mirrors one iteration of the per-connection loop of
  `serve_client` (src/server.cpp); `Mono.serve_client_step` the loop body
  of `Server::serve_client` (src/main.cpp).  Writes are modelled as always
  succeeding; the step reports the replies written and whether the loop
  continues.
* `BQ`, `pushBQ`, `popBQ`, `closeBQ` mirror `BlockingQueue`
  (include/blocking_queue.hpp) in a sequential semantics: an operation
  whose wait condition fails returns `none` ("would block").
* `workerRun` mirrors the worker-thread loop of `ThreadPool::start`
  (src/thread_pool.cpp), with the values the worker reads from the atomic
  `running_` flag given as a list.
* `acceptStep` mirrors the admission section of the accept loop of
  `Server::start` (src/server.cpp, lines 180-205) for one accepted handle.
-/

/-- Shorthand turning a string literal into the list of its characters. -/
def S (s : String) : List Char := s.data

/-- The in-band oversize marker the C++ code uses
(`std::string("**LINE_TOO_LONG**")`). -/
def tooLong : List Char := S "**LINE_TOO_LONG**"

/-- `std::isspace` in the "C" locale, as used by `istream` extraction:
space, tab, newline, vertical tab, form feed, carriage return. -/
def isWS (c : Char) : Bool :=
  c = ' ' || c = '\t' || c = '\n' || c = Char.ofNat 11 || c = Char.ofNat 12 || c = '\r'

/-- `::toupper` in the "C" locale: maps a-z to A-Z, leaves the rest. -/
def cToUpper (c : Char) : Char :=
  if 'a' ≤ c ∧ c ≤ 'z' then Char.ofNat (c.toNat - 32) else c

/-- `iss >> tok`: skip whitespace, then take the maximal run of
non-whitespace characters.  `none` models extraction failure (stream
exhausted after skipping whitespace), in which case the C++ target string
is left empty.  Returns the token and the rest of the stream after it. -/
def extractTok (s : List Char) : Option (List Char × List Char) :=
  let s1 := s.dropWhile (fun c => isWS c)
  match s1 with
  | [] => none
  | _ => some (s1.takeWhile (fun c => !isWS c), s1.dropWhile (fun c => !isWS c))

/-- The key-value map (`KVStore`, src/kvstore.cpp), as an association list
with distinct keys kept distinct by construction. -/
abbrev KVx : Type := List (List Char × List Char)

/-- `KVStore::get`. -/
def getKV (k : List Char) (kv : KVx) : Option (List Char) :=
  (kv.find? (fun p => decide (p.1 = k))).map (fun p => p.2)

/-- `KVStore::set` (`map_[key] = value`: insert or overwrite). -/
def setKV (k v : List Char) (kv : KVx) : KVx :=
  (k, v) :: kv.filter (fun p => decide (p.1 ≠ k))

/-- `KVStore::del` (`map_.erase(key) > 0`): whether the key was present,
and the map without it. -/
def delKV (k : List Char) (kv : KVx) : Bool × KVx :=
  ((kv.find? (fun p => decide (p.1 = k))).isSome,
   kv.filter (fun p => decide (p.1 ≠ k)))

/-- `KVStore::size`. -/
def sizeKV (kv : KVx) : Nat := kv.length

/-- Snapshot of the counters the STATS reply reads (uptime seconds,
active connections, total requests, thread count). -/
structure StatsView where
  up : Int
  active : Int
  total : Nat
  threads : Int
deriving DecidableEq

/-- `Stats::render` (src/stats.cpp) with `keys` as passed by the caller. -/
def statsRender (sv : StatsView) (keys : Nat) : List Char :=
  S ("UPTIME " ++ toString sv.up ++ "s\n"
     ++ "ACTIVE_CONNECTIONS " ++ toString sv.active ++ "\n"
     ++ "TOTAL_REQUESTS " ++ toString sv.total ++ "\n"
     ++ "KEYS " ++ toString keys ++ "\n"
     ++ "THREADS " ++ toString sv.threads ++ "\n")

/-- `std::getline(iss, value)` on a stream whose remaining content is
`s`: reads up to the first newline (or all of `s`); on an exhausted
stream the target is left as the empty string, which coincides with the
value computed here. -/
def getlineRest (s : List Char) : List Char := s.takeWhile (fun c => c ≠ '\n')

/-- The SET value transformation applied to the remainder of the line
after the key: exactly one leading space is stripped
(`if (!value.empty() && value.front() == ' ') value.erase(0, 1);`). -/
def stripOneSpace (r : List Char) : List Char :=
  match r with
  | ' ' :: t => t
  | v => v

/-- The modular command handler `handle_command` (src/server.cpp,
lines 39-81).  Takes the framed line, the shared map, and a snapshot of
the counters STATS would read; returns the reply and the updated map. -/
def handle_command (line : List Char) (kv : KVx) (sv : StatsView) :
    List Char × KVx :=
  let cmd : List Char :=
    match extractTok line with
    | none => []
    | some (t, _) => t.map cToUpper
  let rest : List Char :=
    match extractTok line with
    | none => []
    | some (_, r) => r
  if cmd = S "PING" then (S "PONG\n", kv)
  else if cmd = S "GET" then
    match extractTok rest with
    | none => (S "ERR usage: GET key\n", kv)
    | some (key, _) =>
      match getKV key kv with
      | none => (S "NOTFOUND\n", kv)
      | some v => (S "VALUE " ++ v ++ S "\n", kv)
  else if cmd = S "SET" then
    match extractTok rest with
    | none => (S "ERR usage: SET key value\n", kv)
    | some (key, r2) =>
      (S "OK\n", setKV key (stripOneSpace (getlineRest r2)) kv)
  else if cmd = S "DEL" then
    match extractTok rest with
    | none => (S "ERR usage: DEL key\n", kv)
    | some (key, _) =>
      let r := delKV key kv
      (if r.1 then S "OK\n" else S "NOTFOUND\n", r.2)
  else if cmd = S "STATS" then (statsRender sv (sizeKV kv), kv)
  else if cmd = S "QUIT" then (S "OK bye\n", kv)
  else (S "ERR unknown command\n", kv)

/-- Per-connection state visible to one serving loop iteration: the map
and the `total_requests` counter. -/
structure ConnSt where
  kv : KVx
  requests : Nat
deriving DecidableEq

/-- One iteration of the serving loop of `serve_client` (src/server.cpp,
lines 90-108), given the framer outcome for this iteration (`none` =
disconnected).  Returns the replies written, the new state, and whether
the loop continues (`false` = the connection ends). -/
def serve_client_step (sv : StatsView) (st : ConnSt)
    (lineOpt : Option (List Char)) : List (List Char) × ConnSt × Bool :=
  match lineOpt with
  | none => ([], st, false)
  | some line =>
    if line = tooLong then ([S "ERR line too long\n"], st, false)
    else if line = [] then ([], st, true)
    else
      let r := handle_command line st.kv sv
      ([r.1], ⟨r.2, st.requests + 1⟩, if r.1 = S "OK bye\n" then false else true)

namespace Mono

/-- The monolithic command handler `Server::handle_command`
(src/main.cpp, lines 302-356): same verbs, checked in the order GET, SET,
DEL, STATS, PING, QUIT. -/
def handle_command (line : List Char) (kv : KVx) (sv : StatsView) :
    List Char × KVx :=
  let cmd : List Char :=
    match extractTok line with
    | none => []
    | some (t, _) => t.map cToUpper
  let rest : List Char :=
    match extractTok line with
    | none => []
    | some (_, r) => r
  if cmd = S "GET" then
    match extractTok rest with
    | none => (S "ERR usage: GET key\n", kv)
    | some (key, _) =>
      match getKV key kv with
      | none => (S "NOTFOUND\n", kv)
      | some v => (S "VALUE " ++ v ++ S "\n", kv)
  else if cmd = S "SET" then
    match extractTok rest with
    | none => (S "ERR usage: SET key value\n", kv)
    | some (key, r2) =>
      (S "OK\n", setKV key (stripOneSpace (getlineRest r2)) kv)
  else if cmd = S "DEL" then
    match extractTok rest with
    | none => (S "ERR usage: DEL key\n", kv)
    | some (key, _) =>
      let r := delKV key kv
      (if r.1 then S "OK\n" else S "NOTFOUND\n", r.2)
  else if cmd = S "STATS" then
    (S ("UPTIME " ++ toString sv.up ++ "s\n"
        ++ "ACTIVE_CONNECTIONS " ++ toString sv.active ++ "\n"
        ++ "TOTAL_REQUESTS " ++ toString sv.total ++ "\n"
        ++ "KEYS " ++ toString (sizeKV kv) ++ "\n"
        ++ "THREADS " ++ toString sv.threads ++ "\n"), kv)
  else if cmd = S "PING" then (S "PONG\n", kv)
  else if cmd = S "QUIT" then (S "OK bye\n", kv)
  else (S "ERR unknown command\n", kv)

/-- One iteration of the serving loop of `Server::serve_client`
(src/main.cpp, lines 283-299).  Identical to the modular loop body except
that there is no check of the reply against `"OK bye\n"`: after a
successful write the loop always continues. -/
def serve_client_step (sv : StatsView) (st : ConnSt)
    (lineOpt : Option (List Char)) : List (List Char) × ConnSt × Bool :=
  match lineOpt with
  | none => ([], st, false)
  | some line =>
    if line = tooLong then ([S "ERR line too long\n"], st, false)
    else if line = [] then ([], st, true)
    else
      let r := Mono.handle_command line st.kv sv
      ([r.1], ⟨r.2, st.requests + 1⟩, true)

end Mono

/-- Whether a command line is a SET or DEL on key `k` (the commands that
can change what a later GET on `k` observes). -/
def touchesKey (line k : List Char) : Bool :=
  match extractTok line with
  | none => false
  | some (t, rest) =>
    ((t.map cToUpper = S "SET") || (t.map cToUpper = S "DEL")) &&
    (match extractTok rest with
     | none => false
     | some (key, _) => key = k)

/-- Run a sequence of command lines through the command handler,
threading the map. -/
def runLines (sv : StatsView) (kv : KVx) : List (List Char) → KVx
  | [] => kv
  | l :: ls => runLines sv (handle_command l kv sv).2 ls

/-- A fixed counter snapshot for concrete instantiations. -/
def sv0 : StatsView := ⟨0, 0, 0, 0⟩

/-- Index of the first `'\n'` in the buffer (`buffer_.find('\n')`). -/
def findNL : List Char → Option Nat
  | [] => none
  | c :: rest => if c = '\n' then some 0 else (findNL rest).map (fun n => n + 1)

/-- Strip one trailing carriage return
(`if (!line.empty() && line.back() == '\r') line.pop_back();`). -/
def stripCR (l : List Char) : List Char :=
  if l.getLast? = some '\r' then l.dropLast else l

/-- The line-emitting branch of `LineReader::read_line`: take the bytes
before the newline at position `p`, drop through the newline, strip one
trailing carriage return, and replace the line by the in-band marker when
it exceeds the maximum length. -/
def emitLine (maxLine : Nat) (buf : List Char) (p : Nat)
    (chunks : List (List Char)) : Option (List Char × List Char × List (List Char)) :=
  some (if (stripCR (buf.take p)).length > maxLine then tooLong
        else stripCR (buf.take p),
        buf.drop (p + 1), chunks)

/-- `LineReader::read_line` (src/protocol.cpp, lines 19-43).  The stream
is given as the list of chunks successive `recv` calls return; an empty
remaining list models `recv` returning 0 (disconnect), in which case the
result is `none`.  Otherwise the result carries the returned string (the
line, or the in-band `tooLong` marker), the remaining buffer, and the
unread chunks.  Each loop iteration first checks the buffer for a
newline and only then reads a chunk, so the recursion is split on the
chunk list with the same buffer check in both cases. -/
def readLine (maxLine : Nat) (buf : List Char) :
    List (List Char) → Option (List Char × List Char × List (List Char))
  | [] =>
    match findNL buf with
    | some p => emitLine maxLine buf p []
    | none => none
  | ch :: rest =>
    match findNL buf with
    | some p => emitLine maxLine buf p (ch :: rest)
    | none =>
      if (buf ++ ch).length > maxLine + 4096 then some (tooLong, buf ++ ch, rest)
      else readLine maxLine (buf ++ ch) rest

/-- `BlockingQueue<T>` state (include/blocking_queue.hpp). -/
structure BQ (α : Type) where
  capacity : Nat
  items : List α
  closed : Bool
deriving DecidableEq

/-- `BlockingQueue::push` in sequential semantics.  The wait predicate is
`closed_ || q_.size() < capacity_`; while it is false the caller is
suspended, modelled by `none`.  Once past the wait, a closed queue makes
push return `false`; otherwise the item is appended and push returns
`true`. -/
def pushBQ {α : Type} (q : BQ α) (x : α) : Option (Bool × BQ α) :=
  if q.closed then some (false, q)
  else if q.items.length < q.capacity then
    some (true, ⟨q.capacity, q.items ++ [x], q.closed⟩)
  else none

/-- `BlockingQueue::pop` in sequential semantics.  The wait predicate is
`closed_ || !q_.empty()`; `none` models suspension.  Once past the wait,
an empty (hence closed) queue yields `some (none, q)`; otherwise the
front item is removed and returned. -/
def popBQ {α : Type} (q : BQ α) : Option (Option α × BQ α) :=
  match q.items with
  | [] => if q.closed then some (none, q) else none
  | a :: rest => some (some a, ⟨q.capacity, rest, q.closed⟩)

/-- `BlockingQueue::close`. -/
def closeBQ {α : Type} (q : BQ α) : BQ α := ⟨q.capacity, q.items, true⟩

/-- Repeatedly pop until pop reports `none` (or would block), collecting
the items in the order pop returns them. -/
def drainBQ {α : Type} (q : BQ α) : List α :=
  match h : popBQ q with
  | some (some a, q1) => a :: drainBQ q1
  | _ => []
termination_by q.items.length
decreasing_by
  simp only [popBQ] at h
  rcases hq : q.items with _ | ⟨b, rest⟩ <;> rw [hq] at h
  · split at h <;> simp_all
  · simp only [Option.some.injEq, Prod.mk.injEq] at h
    rw [← h.2]
    simp

/-- One operation of a `BlockingQueue` history. -/
inductive QOp (α : Type) where
  | push (x : α)
  | pop
  | close
deriving DecidableEq

/-- Effect of one operation on the queue, together with the pushed item
when the push succeeded and the popped item when pop yielded one.  An
operation that would block leaves the state unchanged (the caller is
still suspended, so the operation has not taken effect). -/
def stepOp {α : Type} (q : BQ α) : QOp α → BQ α × Option α × Option α
  | QOp.push x =>
    match pushBQ q x with
    | some (true, q1) => (q1, some x, none)
    | some (false, q1) => (q1, none, none)
    | none => (q, none, none)
  | QOp.pop =>
    match popBQ q with
    | some (some a, q1) => (q1, none, some a)
    | some (none, q1) => (q1, none, none)
    | none => (q, none, none)
  | QOp.close => (closeBQ q, none, none)

/-- Run a history of operations: final state, the successfully pushed
items in order, the successfully popped items in order. -/
def runOps {α : Type} (q : BQ α) : List (QOp α) → BQ α × List α × List α
  | [] => (q, [], [])
  | op :: ops =>
    let s := stepOp q op
    let r := runOps s.1 ops
    (r.1, s.2.1.toList ++ r.2.1, s.2.2.toList ++ r.2.2)

/-- Every queue state reached while running a history, the initial state
included. -/
def statesOf {α : Type} (q : BQ α) : List (QOp α) → List (BQ α)
  | [] => [q]
  | op :: ops => q :: statesOf (stepOp q op).1 ops

/-- Why the worker-loop model stopped. -/
inductive WExit where
  | flagDown
  | queueDone
  | blocked
  | outOfTrace
deriving DecidableEq

/-- The worker-thread loop of `ThreadPool::start` (src/thread_pool.cpp,
lines 12-17): `while (running_.load()) { auto job = q_.pop(); if (!job)
break; (*job)(); }`.  The successive values the worker reads from the
atomic `running_` flag are given as a list; jobs are labelled by `Nat`.
Returns the labels of the executed jobs in order, the final queue state,
and why the loop stopped (`blocked`: pop would suspend; `outOfTrace`: the
flag-read trace ran out with the worker still looping). -/
def workerRun : List Bool → BQ Nat → List Nat × BQ Nat × WExit
  | [], q => ([], q, WExit.outOfTrace)
  | f :: fs, q =>
    if f then
      match popBQ q with
      | none => ([], q, WExit.blocked)
      | some (none, q1) => ([], q1, WExit.queueDone)
      | some (some j, q1) =>
        let r := workerRun fs q1
        (j :: r.1, r.2)
    else ([], q, WExit.flagDown)

/-- Observable effect of the admission section of the accept loop on one
accepted handle (src/server.cpp, lines 180-205). -/
structure AcceptRes where
  writes : List (List Char)
  closedHandle : Bool
  incActive : Nat
  decActive : Nat
  decStrict : Nat
  submitted : Bool
  continues : Bool
deriving DecidableEq

/-- The admission section of the accept loop for one accepted handle,
given the strict admission counter value before `fetch_add`, the
configured `max_conns_`, and whether `pool.submit` succeeds.  Returns the
observable effects and the strict counter after the section. -/
def acceptStep (strict maxConns : Int) (submitOk : Bool) : AcceptRes × Int :=
  let now := strict + 1
  if now > maxConns then
    (⟨[S "ERR server busy\n"], true, 1, 1, 1, false, true⟩, now - 1)
  else if submitOk then
    (⟨[], false, 1, 0, 0, true, true⟩, now)
  else
    (⟨[S "ERR server shutting down\n"], true, 1, 1, 1, false, false⟩, now - 1)

/-! ### Helper lemmas -/

theorem takeWhile_append_all {t r : List Char} {p : Char → Bool}
    (h : ∀ a ∈ t, p a = true) : (t ++ r).takeWhile p = t ++ r.takeWhile p := by
  induction t with
  | nil => rfl
  | cons a t ih =>
    simp only [List.cons_append, List.takeWhile_cons, h a (by simp)]
    simp [ih (fun b hb => h b (by simp [hb]))]

theorem dropWhile_append_all {t r : List Char} {p : Char → Bool}
    (h : ∀ a ∈ t, p a = true) : (t ++ r).dropWhile p = r.dropWhile p := by
  induction t with
  | nil => rfl
  | cons a t ih =>
    simp only [List.cons_append, List.dropWhile_cons, h a (by simp)]
    exact ih (fun b hb => h b (by simp [hb]))

theorem takeWhile_all {l : List Char} {p : Char → Bool}
    (h : ∀ a ∈ l, p a = true) : l.takeWhile p = l :=
  List.takeWhile_eq_self_iff.mpr h

theorem dropWhile_all {l : List Char} {p : Char → Bool}
    (h : ∀ a ∈ l, p a = true) : l.dropWhile p = [] :=
  List.dropWhile_eq_nil_iff.mpr h

/-- Shape of a whitespace-separated suffix: empty, or starting with a
whitespace character. -/
def wsSep (r : List Char) : Prop :=
  r = [] ∨ ∃ c rest, r = c :: rest ∧ isWS c = true

theorem takeWhile_nonws_stop {r : List Char} (hr : wsSep r) :
    r.takeWhile (fun c => !isWS c) = [] := by
  rcases hr with rfl | ⟨c, rest, rfl, hc⟩
  · rfl
  · simp [List.takeWhile_cons, hc]

theorem dropWhile_nonws_stop {r : List Char} (hr : wsSep r) :
    r.dropWhile (fun c => !isWS c) = r := by
  rcases hr with rfl | ⟨c, rest, rfl, hc⟩
  · rfl
  · simp [List.dropWhile_cons, hc]

/-- `iss >> tok` on a stream starting with the non-whitespace token `t`
followed by `r` (empty or whitespace-led) yields `t` and leaves `r`. -/
theorem extractTok_token {t r : List Char} (ht : t ≠ [])
    (hn : ∀ a ∈ t, isWS a = false) (hr : wsSep r) :
    extractTok (t ++ r) = some (t, r) := by
  rcases t with _ | ⟨a, t'⟩
  · exact absurd rfl ht
  · have h1 : ∀ b ∈ a :: t', (fun c => !isWS c) b = true :=
      fun b hb => by simp [hn b hb]
    have htake := takeWhile_append_all (r := r) h1
    have hdrop2 := dropWhile_append_all (r := r) h1
    rw [takeWhile_nonws_stop hr, List.append_nil] at htake
    rw [dropWhile_nonws_stop hr] at hdrop2
    simp only [List.cons_append] at htake hdrop2
    have hdrop : (a :: (t' ++ r)).dropWhile (fun c => isWS c) = a :: (t' ++ r) := by
      simp [List.dropWhile_cons, hn a (by simp)]
    simp only [List.cons_append, extractTok, hdrop]
    simp [htake, hdrop2]

/-- On a stream holding only whitespace, extraction fails. -/
theorem extractTok_ws {l : List Char} (h : ∀ a ∈ l, isWS a = true) :
    extractTok l = none := by
  simp [extractTok, dropWhile_all h]

theorem getKV_setKV_same (k v : List Char) (kv : KVx) :
    getKV k (setKV k v kv) = some v := by
  simp [getKV, setKV, List.find?_cons]

theorem find?_filter_of_imp {kv : KVx} {p q : List Char × List Char → Bool}
    (h : ∀ x, p x = true → q x = true) :
    (kv.filter q).find? p = kv.find? p := by
  induction kv with
  | nil => rfl
  | cons a l ih =>
    cases hq : q a <;> cases hpa : p a
    · simp [List.filter_cons, hq, List.find?_cons, hpa, ih]
    · exact absurd (h a hpa) (by simp [hq])
    · simp [List.filter_cons, hq, List.find?_cons, hpa, ih]
    · simp [List.filter_cons, hq, List.find?_cons, hpa, ih]

theorem getKV_setKV_ne {k k2 : List Char} (v : List Char) (kv : KVx)
    (h : k ≠ k2) : getKV k (setKV k2 v kv) = getKV k kv := by
  simp only [getKV, setKV, List.find?_cons]
  have hne : (decide ((k2, v).1 = k)) = false :=
    decide_eq_false (fun hh => h hh.symm)
  rw [hne]
  congr 1
  exact find?_filter_of_imp (fun x hx => by
    simp only [decide_eq_true_eq] at hx
    simp [hx, h])

theorem getKV_delKV_ne {k k2 : List Char} (kv : KVx)
    (h : k ≠ k2) : getKV k (delKV k2 kv).2 = getKV k kv := by
  simp only [getKV, delKV]
  congr 1
  exact find?_filter_of_imp (fun x hx => by
    simp only [decide_eq_true_eq] at hx
    simp [hx, h])

theorem extractTok_ws_cons {c : Char} {s : List Char} (hc : isWS c = true) :
    extractTok (c :: s) = extractTok s := by
  simp [extractTok, List.dropWhile_cons, hc]

theorem getlineRest_no_nl {r : List Char} (hn : '\n' ∉ r) : getlineRest r = r :=
  takeWhile_all (fun a ha => by
    simp only [decide_eq_true_eq]
    exact fun he => hn (he ▸ ha))

/-- Dispatch of a well-formed `SET` line: the stored value is the
remainder after the key with exactly one leading space stripped, and the
reply is `OK`. -/
theorem handle_SET {k r : List Char} (hk : k ≠ [])
    (hkw : ∀ c ∈ k, isWS c = false) (hr : wsSep r) (hn : '\n' ∉ r)
    (kv : KVx) (sv : StatsView) :
    handle_command (S "SET " ++ (k ++ r)) kv sv =
      (S "OK\n", setKV k (stripOneSpace r) kv) := by
  have hshape : S "SET " ++ (k ++ r) = (S "SET") ++ (' ' :: (k ++ r)) := rfl
  have hE : extractTok (S "SET " ++ (k ++ r)) = some (S "SET", ' ' :: (k ++ r)) := by
    rw [hshape]
    exact extractTok_token (by decide) (by decide)
      (Or.inr ⟨' ', k ++ r, rfl, by decide⟩)
  have hE2 : extractTok (' ' :: (k ++ r)) = some (k, r) := by
    rw [extractTok_ws_cons (by decide)]
    exact extractTok_token hk hkw hr
  simp only [handle_command, hE, hE2, getlineRest_no_nl hn]
  rfl

/-- Dispatch of a well-formed `GET` line when the key is present. -/
theorem handle_GET_found {k v : List Char} (hk : k ≠ [])
    (hkw : ∀ c ∈ k, isWS c = false) {kv : KVx} (hfound : getKV k kv = some v)
    (sv : StatsView) :
    handle_command (S "GET " ++ k) kv sv = (S "VALUE " ++ v ++ S "\n", kv) := by
  have hshape : S "GET " ++ k = (S "GET") ++ (' ' :: k) := rfl
  have hE : extractTok (S "GET " ++ k) = some (S "GET", ' ' :: k) := by
    rw [hshape]
    exact extractTok_token (by decide) (by decide)
      (Or.inr ⟨' ', k, rfl, by decide⟩)
  have hE2 : extractTok (' ' :: k) = some (k, []) := by
    rw [extractTok_ws_cons (by decide)]
    have := extractTok_token (r := []) hk hkw (Or.inl rfl)
    rwa [List.append_nil] at this
  simp only [handle_command, hE, hE2, hfound]
  rfl

/-- A line the extractor fails on (only whitespace) dispatches to the
unknown-command reply and leaves the map unchanged. -/
theorem handle_ws {line : List Char} (h : ∀ a ∈ line, isWS a = true)
    (kv : KVx) (sv : StatsView) :
    handle_command line kv sv = (S "ERR unknown command\n", kv) := by
  have hE : extractTok line = none := extractTok_ws h
  simp only [handle_command, hE]
  rfl

/-- A command line that is not a SET or DEL on key `k` leaves what a GET
on `k` observes unchanged. -/
theorem getKV_handle_untouched {line k : List Char}
    (h : touchesKey line k = false) (kv : KVx) (sv : StatsView) :
    getKV k (handle_command line kv sv).2 = getKV k kv := by
  cases hE : extractTok line with
  | none =>
    simp only [handle_command, hE]
    rfl
  | some pr =>
    obtain ⟨t, rest⟩ := pr
    simp only [touchesKey, hE] at h
    simp only [handle_command, hE]
    split_ifs with h1 h2 h3 h4 h5 h6
    · rfl
    · cases hR : extractTok rest with
      | none => rfl
      | some pr2 =>
        obtain ⟨key, r2⟩ := pr2
        simp only [hR]
        cases hG : getKV key kv <;> rfl
    · cases hR : extractTok rest with
      | none => rfl
      | some pr2 =>
        obtain ⟨key, r2⟩ := pr2
        simp only [hR] at h ⊢
        simp [h3] at h
        exact getKV_setKV_ne _ kv (fun hh => h hh.symm)
    · cases hR : extractTok rest with
      | none => rfl
      | some pr2 =>
        obtain ⟨key, r2⟩ := pr2
        simp only [hR] at h ⊢
        simp [h4] at h
        exact getKV_delKV_ne kv (fun hh => h hh.symm)
    · rfl
    · rfl
    · rfl

/-- The monolithic and the modular command handlers compute the same
function of the line, the map and the counter snapshot. -/
theorem mono_handle_eq (line : List Char) (kv : KVx) (sv : StatsView) :
    Mono.handle_command line kv sv = handle_command line kv sv := by
  cases hE : extractTok line with
  | none =>
    simp only [Mono.handle_command, handle_command, hE]
    rfl
  | some pr =>
    obtain ⟨t, rest⟩ := pr
    simp only [Mono.handle_command, handle_command, hE]
    by_cases h1 : t.map cToUpper = S "PING"
    · simp only [h1]; rfl
    · by_cases h2 : t.map cToUpper = S "GET"
      · simp only [h2]; rfl
      · by_cases h3 : t.map cToUpper = S "SET"
        · simp only [h3]; rfl
        · by_cases h4 : t.map cToUpper = S "DEL"
          · simp only [h4]; rfl
          · by_cases h5 : t.map cToUpper = S "STATS"
            · simp only [h5]; rfl
            · by_cases h6 : t.map cToUpper = S "QUIT"
              · simp only [h6]; rfl
              · simp only [if_neg h1, if_neg h2, if_neg h3, if_neg h4,
                  if_neg h5, if_neg h6]

theorem findNL_no_nl_append {c : List Char} (h : '\n' ∉ c) (rest : List Char) :
    findNL (c ++ '\n' :: rest) = some c.length := by
  induction c with
  | nil => simp [findNL]
  | cons a t ih =>
    have ha : ¬(a = '\n') := fun he => h (by simp [he])
    have ht : '\n' ∉ t := fun hm => h (by simp [hm])
    simp [findNL, ha, ih ht]

theorem stripCR_no_cr {c : List Char} (h : c.getLast? ≠ some '\r') :
    stripCR c = c := by
  simp [stripCR, h]

theorem stripCR_concat_cr (c : List Char) : stripCR (c ++ ['\r']) = c := by
  simp [stripCR, List.getLast?_concat, List.dropLast_concat]

/-- `read_line` on a buffer that already contains a complete line: the
bytes before the newline, one trailing CR stripped, checked against the
maximum length. -/
theorem readLine_buf {c tail : List Char} (hnl : '\n' ∉ c) (m : Nat)
    (chunks : List (List Char)) :
    readLine m (c ++ '\n' :: tail) chunks =
      some (if (stripCR c).length > m then tooLong else stripCR c, tail, chunks) := by
  have htake : (c ++ '\n' :: tail).take c.length = c := List.take_left c ('\n' :: tail)
  have hdrop : (c ++ '\n' :: tail).drop (c.length + 1) = tail := by
    rw [List.append_cons]
    have hlen : (c ++ ['\n']).length = c.length + 1 := by simp
    calc ((c ++ ['\n']) ++ tail).drop (c.length + 1)
        = ((c ++ ['\n']) ++ tail).drop ((c ++ ['\n']).length) := by rw [hlen]
      _ = tail := List.drop_left _ _
  have hfind := findNL_no_nl_append hnl tail
  cases chunks <;> rw [readLine] <;> rw [hfind] <;>
    simp only [emitLine, htake, hdrop]

theorem drainBQ_closed {α : Type} (cap : Nat) (l : List α) :
    drainBQ (⟨cap, l, true⟩ : BQ α) = l := by
  induction l with
  | nil => rw [drainBQ.eq_def]; simp [popBQ]
  | cons a t ih => rw [drainBQ.eq_def]; simp [popBQ]; exact ih

theorem stepOp_rel {α : Type} (q : BQ α) (op : QOp α) :
    q.items ++ (stepOp q op).2.1.toList =
      (stepOp q op).2.2.toList ++ (stepOp q op).1.items := by
  cases op with
  | push x =>
    simp only [stepOp, pushBQ]
    split_ifs <;> simp
  | pop =>
    simp only [stepOp, popBQ]
    rcases hq : q.items with _ | ⟨a, rest⟩
    · split_ifs <;> simp [hq]
    · simp [hq]
  | close => simp [stepOp, closeBQ]

theorem stepOp_cap {α : Type} (q : BQ α) (op : QOp α) :
    (stepOp q op).1.capacity = q.capacity := by
  cases op with
  | push x =>
    simp only [stepOp, pushBQ]
    split_ifs <;> simp
  | pop =>
    simp only [stepOp, popBQ]
    rcases hq : q.items with _ | ⟨a, rest⟩
    · split_ifs <;> simp
    · simp
  | close => simp [stepOp, closeBQ]

theorem stepOp_le {α : Type} (q : BQ α) (op : QOp α)
    (h : q.items.length ≤ q.capacity) :
    (stepOp q op).1.items.length ≤ q.capacity := by
  cases op with
  | push x =>
    simp only [stepOp, pushBQ]
    split_ifs with h1 h2 <;> simp [h] <;> omega
  | pop =>
    simp only [stepOp, popBQ]
    rcases hq : q.items with _ | ⟨a, rest⟩
    · split_ifs <;> simp [hq] <;> rw [hq] at h <;> simpa using h
    · rw [hq] at h
      simp only []
      simp at h ⊢
      omega
  | close => simpa [stepOp, closeBQ] using h

theorem runOps_rel {α : Type} (ops : List (QOp α)) :
    ∀ q : BQ α,
      q.items ++ (runOps q ops).2.1 = (runOps q ops).2.2 ++ (runOps q ops).1.items := by
  induction ops with
  | nil => intro q; simp [runOps]
  | cons op ops ih =>
    intro q
    simp only [runOps]
    rw [← List.append_assoc, stepOp_rel q op, List.append_assoc,
      ih (stepOp q op).1, ← List.append_assoc]

theorem statesOf_mem {α : Type} (ops : List (QOp α)) :
    ∀ q : BQ α, q.items.length ≤ q.capacity →
      ∀ s ∈ statesOf q ops, s.capacity = q.capacity ∧ s.items.length ≤ q.capacity := by
  induction ops with
  | nil =>
    intro q hq s hs
    simp only [statesOf, List.mem_singleton] at hs
    exact ⟨by rw [hs], by rw [hs]; exact hq⟩
  | cons op ops ih =>
    intro q hq s hs
    simp only [statesOf, List.mem_cons] at hs
    rcases hs with rfl | hs
    · exact ⟨rfl, hq⟩
    · have hle : (stepOp q op).1.items.length ≤ (stepOp q op).1.capacity := by
        rw [stepOp_cap]; exact stepOp_le q op hq
      have := ih (stepOp q op).1 hle s hs
      rw [stepOp_cap] at this
      exact this

theorem getKV_runLines_untouched {k : List Char} (ls : List (List Char)) :
    ∀ kv : KVx, ∀ sv : StatsView, (∀ l ∈ ls, touchesKey l k = false) →
      getKV k (runLines sv kv ls) = getKV k kv := by
  induction ls with
  | nil => intro kv sv _; rfl
  | cons l ls ih =>
    intro kv sv h
    simp only [runLines]
    rw [ih _ sv (fun l2 h2 => h l2 (by simp [h2]))]
    exact getKV_handle_untouched (h l (by simp)) kv sv

/-! ### Claim theorems -/

/-- C1: the claim fails on the code.  The framer returns the in-band
marker string for the perfectly legal 17-character line
`**LINE_TOO_LONG**` terminated by a newline, and the connection handler
then treats that line as the oversize signal: it writes
`ERR line too long\n` and terminates the connection without incrementing
`total_requests` and without dispatching — although dispatching (as the
claim requires) would have produced `ERR unknown command\n` and
continued. -/
theorem C1_sentinel_collision :
    readLine 8192 (tooLong ++ ['\n']) [] = some (tooLong, [], [])
    ∧ serve_client_step sv0 ⟨[], 0⟩ (some tooLong) =
        ([S "ERR line too long\n"], ⟨[], 0⟩, false)
    ∧ handle_command tooLong [] sv0 = (S "ERR unknown command\n", []) := by
  refine ⟨by decide, by decide, by decide⟩

/-- C2 counterexample: on the line `QUIT` both variants write
`OK bye\n`, but the modular serving loop terminates the connection while
the monolithic one continues — the claimed identical
connection-termination behaviour fails at this input. -/
theorem C2_quit_divergence :
    (serve_client_step sv0 ⟨[], 0⟩ (some (S "QUIT"))).1 = [S "OK bye\n"]
    ∧ (Mono.serve_client_step sv0 ⟨[], 0⟩ (some (S "QUIT"))).1 = [S "OK bye\n"]
    ∧ (serve_client_step sv0 ⟨[], 0⟩ (some (S "QUIT"))).2.2 = false
    ∧ (Mono.serve_client_step sv0 ⟨[], 0⟩ (some (S "QUIT"))).2.2 = true := by
  refine ⟨by decide, by decide, by decide, by decide⟩

/-- C2 (amended): for every input line the two variants write the same
replies and compute the same state, and their continue-or-terminate
decision agrees except when the written reply is `OK bye\n`, where the
modular variant terminates and the monolithic one continues. -/
theorem C2_serving_refinement (sv : StatsView) (kv : KVx) (n : Nat)
    (lineOpt : Option (List Char)) :
    (serve_client_step sv ⟨kv, n⟩ lineOpt).1 =
        (Mono.serve_client_step sv ⟨kv, n⟩ lineOpt).1
    ∧ (serve_client_step sv ⟨kv, n⟩ lineOpt).2.1 =
        (Mono.serve_client_step sv ⟨kv, n⟩ lineOpt).2.1
    ∧ ((serve_client_step sv ⟨kv, n⟩ lineOpt).1 ≠ [S "OK bye\n"] →
        (serve_client_step sv ⟨kv, n⟩ lineOpt).2.2 =
          (Mono.serve_client_step sv ⟨kv, n⟩ lineOpt).2.2)
    ∧ ((serve_client_step sv ⟨kv, n⟩ lineOpt).1 = [S "OK bye\n"] →
        (serve_client_step sv ⟨kv, n⟩ lineOpt).2.2 = false
        ∧ (Mono.serve_client_step sv ⟨kv, n⟩ lineOpt).2.2 = true) := by
  cases lineOpt with
  | none =>
    refine ⟨rfl, rfl, fun _ => rfl, fun h => ?_⟩
    have h1 : ([] : List (List Char)) = [S "OK bye\n"] := h
    exact absurd h1 (by decide)
  | some line =>
    by_cases ht : line = tooLong
    · subst ht
      refine ⟨rfl, rfl, fun _ => rfl, fun h => ?_⟩
      have h1 : ([S "ERR line too long\n"] : List (List Char)) = [S "OK bye\n"] := h
      exact absurd h1 (by decide)
    · by_cases he : line = []
      · subst he
        refine ⟨rfl, rfl, fun _ => rfl, fun h => ?_⟩
        have h1 : ([] : List (List Char)) = [S "OK bye\n"] := h
        exact absurd h1 (by decide)
      · simp only [serve_client_step, Mono.serve_client_step, if_neg ht,
          if_neg he, mono_handle_eq]
        refine ⟨trivial, trivial, ?_, ?_⟩
        · intro hne
          have hr : ¬((handle_command line kv sv).1 = S "OK bye\n") :=
            fun hh => hne (by rw [hh])
          rw [if_neg hr]
        · intro heq
          have hr : (handle_command line kv sv).1 = S "OK bye\n" := by
            injection heq
          rw [if_pos hr]
          exact ⟨rfl, trivial⟩

/-- C2 witness: concrete instantiation of the amended equivalence at the
lines `QUIT` (where termination diverges as stated) and `PING` (where it
agrees). -/
theorem C2_serving_refinement_witness :
    ((serve_client_step sv0 ⟨[], 0⟩ (some (S "QUIT"))).2.2 = false
      ∧ (Mono.serve_client_step sv0 ⟨[], 0⟩ (some (S "QUIT"))).2.2 = true)
    ∧ (serve_client_step sv0 ⟨[], 0⟩ (some (S "PING"))).2.2 =
        (Mono.serve_client_step sv0 ⟨[], 0⟩ (some (S "PING"))).2.2 :=
  ⟨(C2_serving_refinement sv0 [] 0 (some (S "QUIT"))).2.2.2 (by decide),
   (C2_serving_refinement sv0 [] 0 (some (S "PING"))).2.2.1 (by decide)⟩

/-- C3: when the incremented strict-admission counter reads above
`max_conns`, the acceptor writes `ERR server busy\n`, closes the handle,
decrements `Stats.active` and the strict counter exactly once, does not
submit, and continues accepting (the counter returning to its prior
value); and conversely a handle is submitted only when the incremented
read did not exceed `max_conns`. -/
theorem C3_admission_reject (strict maxConns : Int) (submitOk : Bool) :
    (strict + 1 > maxConns →
       acceptStep strict maxConns submitOk =
         (⟨[S "ERR server busy\n"], true, 1, 1, 1, false, true⟩, strict))
    ∧ ((acceptStep strict maxConns submitOk).1.submitted = true →
       strict + 1 ≤ maxConns) := by
  constructor
  · intro h
    simp only [acceptStep, if_pos h]
    congr 1
    omega
  · intro h
    by_cases hgt : strict + 1 > maxConns
    · simp only [acceptStep, if_pos hgt] at h
      exact absurd h (by decide)
    · omega

/-- C3 witness: with the counter at the cap (2 of 2), the next accept is
rejected exactly as stated. -/
theorem C3_admission_reject_witness :
    acceptStep 2 2 true =
      (⟨[S "ERR server busy\n"], true, 1, 1, 1, false, true⟩, 2) :=
  (C3_admission_reject 2 2 true).1 (by decide)

/-- C4: close is idempotent; after close every push returns false even
with free capacity; pop drains the remaining buffered items in order
until the queue is empty and then reports none; and pop reports none
only when the queue is both closed and empty. -/
theorem C4_close_semantics {α : Type} (q : BQ α) (x : α) :
    closeBQ (closeBQ q) = closeBQ q
    ∧ pushBQ (closeBQ q) x = some (false, closeBQ q)
    ∧ drainBQ (closeBQ q) = q.items
    ∧ popBQ (⟨q.capacity, [], true⟩ : BQ α) = some (none, ⟨q.capacity, [], true⟩)
    ∧ (∀ r q1, popBQ q = some (r, q1) →
        (r = none ↔ q.closed = true ∧ q.items = [])) := by
  refine ⟨rfl, by simp [pushBQ, closeBQ], drainBQ_closed q.capacity q.items,
    by simp [popBQ], ?_⟩
  intro r q1 h
  obtain ⟨cap, items, closed⟩ := q
  rcases items with _ | ⟨a, rest⟩
  · cases closed with
    | false => exact Option.noConfusion (h : (none : Option (Option α × BQ α)) = some (r, q1))
    | true =>
      have h2 : some ((none : Option α), (⟨cap, [], true⟩ : BQ α)) = some (r, q1) := h
      have hr : (none : Option α) = r := congrArg Prod.fst (Option.some.inj h2)
      exact ⟨fun _ => ⟨rfl, rfl⟩, fun _ => hr.symm⟩
  · have h2 : some ((some a : Option α), (⟨cap, rest, closed⟩ : BQ α)) = some (r, q1) := h
    have hr : (some a : Option α) = r := congrArg Prod.fst (Option.some.inj h2)
    constructor
    · intro hrn
      rw [← hr] at hrn
      cases hrn
    · intro hcl
      exact absurd hcl.2 (by simp)

/-- C4 witness: draining a closed two-element queue returns its items in
order, and a successful pop yielding an item certifies the iff at a
concrete state. -/
theorem C4_close_semantics_witness :
    drainBQ (closeBQ (⟨2, [4, 5], false⟩ : BQ Nat)) = [4, 5]
    ∧ ((some 4 : Option Nat) = none ↔
        (⟨2, [4, 5], false⟩ : BQ Nat).closed = true
        ∧ (⟨2, [4, 5], false⟩ : BQ Nat).items = []) :=
  ⟨(C4_close_semantics (⟨2, [4, 5], false⟩ : BQ Nat) 9).2.2.1,
   (C4_close_semantics (⟨2, [4, 5], false⟩ : BQ Nat) 9).2.2.2.2
     (some 4) ⟨2, [5], false⟩ (by decide)⟩

/-- C5 counterexample: a worker that reads the running flag as false
exits immediately — having executed nothing — while pop would still
yield job 7, so a worker does not exit only when pop reports none. -/
theorem C5_flag_exit :
    workerRun [false] ⟨4, [7], false⟩ = ([], ⟨4, [7], false⟩, WExit.flagDown)
    ∧ popBQ (⟨4, [7], false⟩ : BQ Nat) = some (some 7, ⟨4, [], false⟩) := by
  refine ⟨by decide, by decide⟩

/-- C5 (amended): each worker re-checks the pool's running flag before
every pop; it exits when the flag reads false or when pop reports none
(which happens only with the queue closed and empty); otherwise it
executes the popped job to completion and resumes, executing the jobs it
pops in queue order.  If every flag read is true, the worker never exits
through the flag path. -/
theorem C5_worker_loop (fs : List Bool) (q : BQ Nat) :
    (workerRun fs q).2.1.closed = q.closed
    ∧ q.items = (workerRun fs q).1 ++ (workerRun fs q).2.1.items
    ∧ ((workerRun fs q).2.2 = WExit.queueDone →
        q.closed = true ∧ (workerRun fs q).2.1.items = [])
    ∧ ((∀ f ∈ fs, f = true) → (workerRun fs q).2.2 ≠ WExit.flagDown) := by
  induction fs generalizing q with
  | nil =>
    exact ⟨rfl, by simp [workerRun],
      fun h => WExit.noConfusion (h : WExit.outOfTrace = WExit.queueDone),
      fun _ h => WExit.noConfusion (h : WExit.outOfTrace = WExit.flagDown)⟩
  | cons f fs ih =>
    obtain ⟨cap, items, closed⟩ := q
    cases f with
    | false =>
      refine ⟨rfl, by simp [workerRun],
        fun h => WExit.noConfusion (h : WExit.flagDown = WExit.queueDone), ?_⟩
      intro hall
      exact absurd (hall false (by simp)) (by decide)
    | true =>
      rcases items with _ | ⟨a, rest⟩
      · cases closed with
        | false =>
          exact ⟨rfl, by simp [workerRun, popBQ],
            fun h => WExit.noConfusion (h : WExit.blocked = WExit.queueDone),
            fun _ h => WExit.noConfusion (h : WExit.blocked = WExit.flagDown)⟩
        | true =>
          exact ⟨rfl, by simp [workerRun, popBQ], fun _ => ⟨rfl, rfl⟩,
            fun _ h => WExit.noConfusion (h : WExit.queueDone = WExit.flagDown)⟩
      · have ihq := ih (⟨cap, rest, closed⟩ : BQ Nat)
        refine ⟨ihq.1, ?_, ?_, ?_⟩
        · have h2 : rest =
              (workerRun fs (⟨cap, rest, closed⟩ : BQ Nat)).1 ++
                (workerRun fs (⟨cap, rest, closed⟩ : BQ Nat)).2.1.items := ihq.2.1
          show a :: rest =
            (a :: (workerRun fs (⟨cap, rest, closed⟩ : BQ Nat)).1) ++
              (workerRun fs (⟨cap, rest, closed⟩ : BQ Nat)).2.1.items
          rw [List.cons_append, ← h2]
        · intro h
          exact ihq.2.2.1
            (h : (workerRun fs (⟨cap, rest, closed⟩ : BQ Nat)).2.2 = WExit.queueDone)
        · intro hall
          have hnf := ihq.2.2.2 (fun g hg => hall g (by simp [hg]))
          exact fun h => hnf
            (h : (workerRun fs (⟨cap, rest, closed⟩ : BQ Nat)).2.2 = WExit.flagDown)

/-- C5 witness: with the flag reading true throughout and a closed
queue holding one job, the worker executes the job, then exits through
the pop-reports-none path, never through the flag path. -/
theorem C5_worker_loop_witness :
    workerRun [true, true] ⟨2, [5], true⟩ = ([5], ⟨2, [], true⟩, WExit.queueDone)
    ∧ ((⟨2, [5], true⟩ : BQ Nat).closed = true
        ∧ (workerRun [true, true] ⟨2, [5], true⟩).2.1.items = [])
    ∧ (workerRun [true, true] (⟨2, [5], true⟩ : BQ Nat)).2.2 ≠ WExit.flagDown :=
  ⟨by decide,
   (C5_worker_loop [true, true] ⟨2, [5], true⟩).2.2.1 (by decide),
   (C5_worker_loop [true, true] ⟨2, [5], true⟩).2.2.2 (by decide)⟩

/-- C6: starting from an empty queue of capacity C, the successfully
pushed items equal the successfully popped items followed by the items
still buffered — so the k-th successful pop returns the k-th
successfully pushed item — and no reachable state buffers more than C
items. -/
theorem C6_fifo (C : Nat) (ops : List (QOp Nat)) :
    (runOps (⟨C, [], false⟩ : BQ Nat) ops).2.1 =
        (runOps (⟨C, [], false⟩ : BQ Nat) ops).2.2
          ++ (runOps (⟨C, [], false⟩ : BQ Nat) ops).1.items
    ∧ (∀ k, k < (runOps (⟨C, [], false⟩ : BQ Nat) ops).2.2.length →
        (runOps (⟨C, [], false⟩ : BQ Nat) ops).2.2[k]? =
          (runOps (⟨C, [], false⟩ : BQ Nat) ops).2.1[k]?)
    ∧ (∀ s ∈ statesOf (⟨C, [], false⟩ : BQ Nat) ops, s.items.length ≤ C) := by
  have h1 : (runOps (⟨C, [], false⟩ : BQ Nat) ops).2.1 =
      (runOps (⟨C, [], false⟩ : BQ Nat) ops).2.2
        ++ (runOps (⟨C, [], false⟩ : BQ Nat) ops).1.items := by
    have := runOps_rel ops (⟨C, [], false⟩ : BQ Nat)
    simpa using this
  refine ⟨h1, ?_, ?_⟩
  · intro k hk
    rw [h1, List.getElem?_append, if_pos hk]
  · intro s hs
    have := statesOf_mem ops (⟨C, [], false⟩ : BQ Nat) (by simp) s hs
    simpa using this.2

/-- C6 witness: a concrete history on a capacity-2 queue, checking the
0-th pop against the 0-th push and the bound at a reached full state. -/
theorem C6_fifo_witness :
    (runOps (⟨2, [], false⟩ : BQ Nat)
        [QOp.push 1, QOp.push 2, QOp.pop]).2.2[0]? =
      (runOps (⟨2, [], false⟩ : BQ Nat)
        [QOp.push 1, QOp.push 2, QOp.pop]).2.1[0]?
    ∧ (⟨2, [1, 2], false⟩ : BQ Nat).items.length ≤ 2 :=
  ⟨(C6_fifo 2 [QOp.push 1, QOp.push 2, QOp.pop]).2.1 0 (by decide),
   (C6_fifo 2 [QOp.push 1, QOp.push 2, QOp.pop]).2.2
     ⟨2, [1, 2], false⟩ (by decide)⟩

/-- C7: with maximum line length 8192, a complete line whose content
(after discarding the newline and stripping one trailing carriage
return) has length exactly 8192 is returned as that line, both with CRLF
and with bare LF termination, while content of length 8193 yields the
oversize outcome. -/
theorem C7_length_boundary (c : List Char) (hnl : '\n' ∉ c) :
    (c.length = 8192 →
      readLine 8192 (c ++ ['\r', '\n']) [] = some (c, [], [])
      ∧ (c.getLast? ≠ some '\r' →
          readLine 8192 (c ++ ['\n']) [] = some (c, [], [])))
    ∧ (c.length = 8193 →
      readLine 8192 (c ++ ['\r', '\n']) [] = some (tooLong, [], [])) := by
  have hshape : c ++ ['\r', '\n'] = (c ++ ['\r']) ++ '\n' :: [] := by
    rw [List.append_assoc]
    rfl
  have hnl2 : '\n' ∉ c ++ ['\r'] := by
    intro hm
    rcases List.mem_append.mp hm with hm1 | hm2
    · exact hnl hm1
    · simp at hm2
  have hcrlf := @readLine_buf (c ++ ['\r']) [] hnl2 8192 []
  rw [stripCR_concat_cr] at hcrlf
  constructor
  · intro hlen
    constructor
    · rw [hshape, hcrlf, if_neg (by omega)]
    · intro hlast
      have hlf := @readLine_buf c [] hnl 8192 []
      rw [stripCR_no_cr hlast] at hlf
      rw [show c ++ ['\n'] = c ++ '\n' :: [] from rfl, hlf, if_neg (by omega)]
  · intro hlen
    rw [hshape, hcrlf, if_pos (by omega)]

/-- C7 witness: concrete lines of 8192 and 8193 repeated characters. -/
theorem C7_length_boundary_witness :
    readLine 8192 (List.replicate 8192 'a' ++ ['\r', '\n']) [] =
        some (List.replicate 8192 'a', [], [])
    ∧ readLine 8192 (List.replicate 8192 'a' ++ ['\n']) [] =
        some (List.replicate 8192 'a', [], [])
    ∧ readLine 8192 (List.replicate 8193 'a' ++ ['\r', '\n']) [] =
        some (tooLong, [], []) := by
  have hmem : ∀ n : Nat, '\n' ∉ List.replicate n 'a' := by
    intro n hm
    rw [List.mem_replicate] at hm
    exact absurd hm.2 (by decide)
  have h1 := C7_length_boundary (List.replicate 8192 'a') (hmem 8192)
  have h2 := C7_length_boundary (List.replicate 8193 'a') (hmem 8193)
  have hlen1 : (List.replicate 8192 'a').length = 8192 := List.length_replicate 8192 'a'
  have hlen2 : (List.replicate 8193 'a').length = 8193 := List.length_replicate 8193 'a'
  have hlast : (List.replicate 8192 'a').getLast? ≠ some '\r' := by
    rw [List.getLast?_replicate]
    decide
  exact ⟨(h1.1 hlen1).1, (h1.1 hlen1).2 hlast, h2.2 hlen2⟩

/-- C8: for a SET line built from a non-whitespace key and an arbitrary
remainder (empty or whitespace-led), the stored value is the remainder
verbatim with exactly one leading space stripped — internal whitespace
and trailing spaces preserved, empty remainder giving the empty string —
and the reply is `OK\n`. -/
theorem C8_set_value (k r : List Char) (kv : KVx) (sv : StatsView)
    (hk : k ≠ []) (hkw : ∀ c ∈ k, isWS c = false) (hr : wsSep r)
    (hn : '\n' ∉ r) :
    handle_command (S "SET " ++ (k ++ r)) kv sv =
      (S "OK\n", setKV k (stripOneSpace r) kv) :=
  handle_SET hk hkw hr hn kv sv

/-- C8 witness: `SET k  bar baz ` stores ` bar baz ` (one separating
space stripped, inner and trailing spaces kept); `SET k ` and `SET k`
store the empty string. -/
theorem C8_set_value_witness :
    handle_command (S "SET " ++ (S "k" ++ S "  bar baz ")) [] sv0 =
        (S "OK\n", setKV (S "k") (stripOneSpace (S "  bar baz ")) [])
    ∧ handle_command (S "SET " ++ (S "k" ++ S " ")) [] sv0 =
        (S "OK\n", setKV (S "k") (stripOneSpace (S " ")) [])
    ∧ handle_command (S "SET " ++ (S "k" ++ S "")) [] sv0 =
        (S "OK\n", setKV (S "k") (stripOneSpace (S "")) []) :=
  ⟨C8_set_value (S "k") (S "  bar baz ") [] sv0 (by decide) (by decide)
     (Or.inr ⟨' ', S " bar baz ", rfl, by decide⟩) (by decide),
   C8_set_value (S "k") (S " ") [] sv0 (by decide) (by decide)
     (Or.inr ⟨' ', S "", rfl, by decide⟩) (by decide),
   C8_set_value (S "k") (S "") [] sv0 (by decide) (by decide)
     (Or.inl rfl) (by decide)⟩

/-- C9: `SET k v` replies `OK\n`, and after any sequence of commands
none of which is a SET or DEL on `k`, `GET k` replies `VALUE v\n` with
the internal spaces of `v` preserved. -/
theorem C9_set_get_roundtrip (k v : List Char) (ls : List (List Char))
    (kv : KVx) (sv1 sv2 sv3 : StatsView) (hk : k ≠ [])
    (hkw : ∀ c ∈ k, isWS c = false) (hv : '\n' ∉ v)
    (hls : ∀ l ∈ ls, touchesKey l k = false) :
    (handle_command (S "SET " ++ (k ++ ' ' :: v)) kv sv1).1 = S "OK\n"
    ∧ handle_command (S "GET " ++ k)
        (runLines sv2 (handle_command (S "SET " ++ (k ++ ' ' :: v)) kv sv1).2 ls)
        sv3 =
      (S "VALUE " ++ v ++ S "\n",
       runLines sv2 (handle_command (S "SET " ++ (k ++ ' ' :: v)) kv sv1).2 ls) := by
  have hn : '\n' ∉ ' ' :: v := by
    intro hm
    rcases List.mem_cons.mp hm with h1 | h2
    · exact absurd h1 (by decide)
    · exact hv h2
  have hset := handle_SET hk hkw (Or.inr ⟨' ', v, rfl, by decide⟩) hn kv sv1
  have hstrip : stripOneSpace (' ' :: v) = v := rfl
  rw [hstrip] at hset
  constructor
  · rw [hset]
  · rw [hset]
    have hget : getKV k (runLines sv2 (setKV k v kv) ls) = some v := by
      rw [getKV_runLines_untouched ls (setKV k v kv) sv2 hls]
      exact getKV_setKV_same k v kv
    exact handle_GET_found hk hkw hget sv3

/-- C9 witness: `SET foo bar baz`, then two commands not touching `foo`,
then `GET foo` returning `VALUE bar baz\n`. -/
theorem C9_set_get_roundtrip_witness :
    (handle_command (S "SET " ++ (S "foo" ++ ' ' :: S "bar baz")) [] sv0).1 = S "OK\n"
    ∧ handle_command (S "GET " ++ S "foo")
        (runLines sv0
          (handle_command (S "SET " ++ (S "foo" ++ ' ' :: S "bar baz")) [] sv0).2
          [S "SET other 1", S "PING"])
        sv0 =
      (S "VALUE " ++ S "bar baz" ++ S "\n",
       runLines sv0
         (handle_command (S "SET " ++ (S "foo" ++ ' ' :: S "bar baz")) [] sv0).2
         [S "SET other 1", S "PING"]) :=
  C9_set_get_roundtrip (S "foo") (S "bar baz") [S "SET other 1", S "PING"]
    [] sv0 sv0 sv0 (by decide) (by decide) (by decide) (by decide)

/-- C10: a non-empty line consisting only of whitespace is not the
empty-line no-op: the handler counts it as a request, replies
`ERR unknown command\n`, and the connection continues. -/
theorem C10_whitespace_line (line : List Char) (kv : KVx) (n : Nat)
    (sv : StatsView) (hne : line ≠ []) (hws : ∀ c ∈ line, isWS c = true) :
    serve_client_step sv ⟨kv, n⟩ (some line) =
      ([S "ERR unknown command\n"], ⟨kv, n + 1⟩, true) := by
  have hnt : ¬(line = tooLong) := fun he => by
    have h1 : isWS '*' = true := hws '*' (by rw [he]; decide)
    exact absurd h1 (by decide)
  have hh := handle_ws hws kv sv
  simp only [serve_client_step, if_neg hnt, if_neg hne, hh]
  rfl

/-- C10 witness: the single-space line. -/
theorem C10_whitespace_line_witness :
    serve_client_step sv0 ⟨[], 3⟩ (some [' ']) =
      ([S "ERR unknown command\n"], ⟨[], 4⟩, true) :=
  C10_whitespace_line [' '] [] 3 sv0 (by decide) (by decide)
